import Mathlib

/-!
Verification development for `mr/core/fitting.py` (per-column nonlinear
least-squares fitting and power-law fitting over pandas DataFrames).

Modelling conventions for the shallow embedding:

* Python floats are modelled as `ℚ`; a pandas cell is `PyVal := Option ℚ`,
  where `none` stands for a missing or non-finite value (NaN or ±inf).
  Inside `NLS` the source sets the pandas option `use_inf_as_null`, under
  which pandas treats infinities exactly like NaN for `dropna`, `fillna`
  and `mean`, so the collapse of NaN and ±inf into `none` is faithful there.
* `np.log` and `np.exp` are floating-point approximations in the source; we
  model them by abstract parameters `plog pexp : ℚ → ℚ` giving the value of
  the logarithm/exponential on the (strictly positive, resp. arbitrary)
  finite arguments, while `np.log` of a non-positive value yields a
  non-finite result, i.e. `none`.
* A pandas `Series` is a list of (index, value) pairs; index-aligned
  arithmetic (`y - f`, `e.mul(weights)`) is modelled by `mergeOp`, which
  walks the two indices producing the union, pairing equal labels and
  producing `none` (NaN) where a label is present on only one side.  This
  models pandas alignment for monotone indices, the documented use case
  ("data indexed by the exogenous variable").
* The external solver `lmfit.minimize` is a black box: it receives the
  objective closure and the initial parameters and returns final parameter
  values, standard errors, the residual vector at the optimum, and a
  success flag.  It is modelled as an oracle argument `m : Minimizer`.
* The plotting collaborator (`plots.fit`) and `print` are external side
  effects that do not influence the returned values; they are not modelled.
-/

namespace Fitting

/-- A pandas cell: `none` is a missing / non-finite entry (NaN, and ±inf
under `use_inf_as_null`), `some q` a finite float modelled as a rational. -/
abbrev PyVal := Option ℚ

/-- Lift a binary float operation to cells: any NaN operand gives NaN. -/
def pvBin (g : ℚ → ℚ → ℚ) : PyVal → PyVal → PyVal
  | some a, some b => some (g a b)
  | _, _ => none

/-- Cell subtraction (`a - b`, NaN-propagating). -/
def pvSub : PyVal → PyVal → PyVal := pvBin (fun a b => a - b)

/-- Cell multiplication (`a * b`, NaN-propagating). -/
def pvMul : PyVal → PyVal → PyVal := pvBin (fun a b => a * b)

/-- Cell division: NaN-propagating, and a zero divisor yields a non-finite
result (`inf` or `nan` in numpy), i.e. `none`. -/
def pvDiv : PyVal → PyVal → PyVal
  | some a, some b => if b = 0 then none else some (a / b)
  | _, _ => none

/-- Model of `np.log` on a finite float: non-finite outcome (`nan` for a
negative argument, `-inf` for zero) is `none`; on a positive argument the
value is given by the abstract logarithm `plog`. -/
def npLogQ (plog : ℚ → ℚ) (v : ℚ) : PyVal :=
  if 0 < v then some (plog v) else none

/-- A pandas `Series`: a list of (index label, cell) pairs.  The index is
numeric (the source coerces `data.index` to `float64`). -/
structure PSeries where
  data : List (ℚ × PyVal)
deriving DecidableEq, Repr, Inhabited

namespace PSeries

/-- Model of `Series.dropna()`: keep the rows whose value is present. -/
def dropna (s : PSeries) : PSeries :=
  ⟨s.data.filter (fun pr => pr.2.isSome)⟩

/-- Model of `Series.apply(f)` for an elementwise float function: a present
value is mapped through `f` (which may itself produce NaN), a missing value
stays missing. -/
def apply (f : ℚ → PyVal) (s : PSeries) : PSeries :=
  ⟨s.data.map (fun pr => (pr.1, pr.2.bind f))⟩

/-- Map the cells of a series, keeping the index. -/
def mapVals (g : PyVal → PyVal) (s : PSeries) : PSeries :=
  ⟨s.data.map (fun pr => (pr.1, g pr.2))⟩

/-- Model of `np.log` applied elementwise to a series. -/
def npLog (plog : ℚ → ℚ) (s : PSeries) : PSeries :=
  s.mapVals (fun v => v.bind (npLogQ plog))

/-- Model of `Series.mean()`: pandas skips missing entries; the mean of no
present entries is NaN. -/
def meanVal (s : PSeries) : PyVal :=
  let l := s.data.filterMap (fun pr => pr.2)
  if l.length = 0 then none else some (l.sum / l.length)

/-- Model of `Series.fillna(v)`: replace every missing cell by `v` (filling
with NaN leaves the cell missing, since then `v = none`). -/
def fillna (v : PyVal) (s : PSeries) : PSeries :=
  s.mapVals (fun x => if x.isSome then x else v)

/-- Model of `Series.values`: the cells in index order. -/
def values (s : PSeries) : List PyVal :=
  s.data.map (fun pr => pr.2)

end PSeries

/-- Fuel-indexed worker for index-aligned binary operations.  The fuel is
always instantiated with the sum of the lengths, so the exhaustion branch is
unreachable; it exists only to keep the recursion structural. -/
def mergeOpAux (g : PyVal → PyVal → PyVal) :
    ℕ → List (ℚ × PyVal) → List (ℚ × PyVal) → List (ℚ × PyVal)
  | _, [], ys => ys.map (fun pr => (pr.1, none))
  | _, x :: xs, [] => (x :: xs).map (fun pr => (pr.1, none))
  | 0, _ :: _, _ :: _ => []
  | n + 1, (i, a) :: xs, (j, b) :: ys =>
    if i < j then (i, none) :: mergeOpAux g n xs ((j, b) :: ys)
    else if j < i then (j, none) :: mergeOpAux g n ((i, a) :: xs) ys
    else (i, g a b) :: mergeOpAux g n xs ys

/-- Index-aligned binary operation on two series (pandas alignment for
monotone indices): the result is indexed by the union of the indices, with
`g` applied where a label occurs on both sides and NaN where it occurs on
only one side. -/
def mergeOp (g : PyVal → PyVal → PyVal) (a b : List (ℚ × PyVal)) :
    List (ℚ × PyVal) :=
  mergeOpAux g (a.length + b.length) a b

/-- Aligned subtraction of series (`y - f`). -/
def PSeries.sub (a b : PSeries) : PSeries :=
  ⟨mergeOp pvSub a.data b.data⟩

/-- Aligned multiplication of series (`e.mul(weights)`). -/
def PSeries.mul (a b : PSeries) : PSeries :=
  ⟨mergeOp pvMul a.data b.data⟩

/-- A pandas `DataFrame`: a shared numeric row index and labelled columns
of cells. -/
structure PDataFrame where
  idx : List ℚ
  cols : List (String × List PyVal)
deriving DecidableEq, Repr, Inhabited

/-- The series of one column of a frame: cells paired with the row index. -/
def colSeries (idx : List ℚ) (vals : List PyVal) : PSeries :=
  ⟨idx.zip vals⟩

/-- Model of `x = Series(data.index.values, index=data.index)`: the x-axis
as a series whose values equal its own (finite, numeric) index. -/
def xSeries (idx : List ℚ) : PSeries :=
  ⟨idx.map (fun i => (i, some i))⟩

/-- An lmfit parameter set, resolved to initial values: an ordered list of
(name, value) pairs (lmfit `Parameters` is an ordered dict, so names are
unique in any set the source can build). -/
abbrev Params := List (String × ℚ)

/-- Lines 93-100 of the source: build the model prediction over the first
argument, subtract (in log space when `log_residual` is set), and replace
the missing/non-finite entries by the mean of the present ones
(`e.fillna(e.mean())`). -/
def preWeightE (plog : ℚ → ℚ) (lr : Bool) (mf : ℚ → Params → PyVal)
    (q : Params) (x y : PSeries) : PSeries :=
  let f := x.apply (fun v => mf v q)
  let e := if lr then (y.npLog plog).sub (f.npLog plog) else y.sub f
  e.fillna e.meanVal

/-- Lines 93-104 of the source (`residual_func`): the objective handed to
the solver.  After the mean-substituted residual is built, it is returned
as a plain vector, multiplied elementwise by the weight series when one is
given. -/
def residual_func (plog : ℚ → ℚ) (lr : Bool) (mf : ℚ → Params → PyVal)
    (q : Params) (x y : PSeries) (w : Option PSeries) : List PyVal :=
  match w with
  | none => (preWeightE plog lr mf q x y).values
  | some ws => ((preWeightE plog lr mf q x y).mul ws).values

/-- What `lmfit.minimize` hands back: the final parameter set (same names
as the initial one, each with a fitted value and an optional standard
error), the residual vector at the optimum, and the convergence flag
(`success`).  A non-converged `leastsq` run does not raise; it only clears
the flag. -/
structure MinimizeResult where
  params : List (String × ℚ × PyVal)
  residual : List PyVal
  success : Bool
deriving DecidableEq, Repr, Inhabited

/-- The external solver as an oracle: it receives the objective closure
(the residual as a function of the parameters) and the initial parameter
set. -/
abbrev Minimizer := (Params → List PyVal) → Params → MinimizeResult

/-- The `params` argument of `NLS`: either a fixed `Parameters` object or a
callable deriving one from a column's data. -/
inductive ParamSpec where
  | static (p : Params)
  | factory (f : PSeries → Params)

/-- Lines 124-127 of the source: inside the loop, a callable spec is
invoked on the column's cleaned (`dropna`-ed) data. -/
def resolveParams (spec : ParamSpec) (y : PSeries) : Params :=
  match spec with
  | .static p => p
  | .factory f => f y

/-- The first column of the frame as a series, missing values included
(`ys.icol(0)` at line 114). -/
def rawCol0 (data : PDataFrame) : PSeries :=
  match data.cols with
  | [] => ⟨[]⟩
  | c :: _ => colSeries data.idx c.2

/-- Lines 113-116 of the source: resolve the parameter spec once before the
loop, to index the results frames.  A callable spec receives the first
column with missing values still included; on a frame with no columns
`icol(0)` raises. -/
def initParams (spec : ParamSpec) (data : PDataFrame) : Except String Params :=
  match spec with
  | .static p => .ok p
  | .factory f =>
    match data.cols with
    | [] => .error "index out of bounds"
    | c :: _ => .ok (f (colSeries data.idx c.2))

/-- The parameter names the result frames are indexed by: the names of the
spec resolved before the loop (for a callable spec, on the raw first
column). -/
def initParamNames (spec : ParamSpec) (data : PDataFrame) : List String :=
  match spec with
  | .static p => p.map Prod.fst
  | .factory f => (f (rawCol0 data)).map Prod.fst

/-- Lines 109-112 of the source: `assert weights.size == x.size`, then
re-index the weight array by the x-axis. -/
def checkWeights (data : PDataFrame) :
    Option (List PyVal) → Except String (Option PSeries)
  | none => .ok none
  | some ws =>
    if ws.length = data.idx.length then .ok (some ⟨data.idx.zip ws⟩)
    else .error "weights must be an array-like sequence the same length as data."

/-- Error-propagating map over a list, modelling a Python loop in which an
exception aborts the remaining iterations. -/
def exMapM {α β : Type} (f : α → Except String β) : List α → Except String (List β)
  | [] => .ok []
  | a :: as =>
    match f a with
    | .error e => .error e
    | .ok b =>
      match exMapM f as with
      | .error e => .error e
      | .ok bs => .ok (b :: bs)

/-- What one iteration of the column loop produces: the column label, the
solver's final parameters, the stored residual series, and the fitted
curve. -/
structure ColOut where
  label : String
  resParams : List (String × ℚ × PyVal)
  residSer : PSeries
  fitSer : PSeries
deriving DecidableEq, Repr

/-- Look up a fitted parameter value by name (the alignment performed by
`values[col] = result_params.apply(...)`: an absent name yields NaN). -/
def lookupVal (ps : List (String × ℚ × PyVal)) (n : String) : PyVal :=
  match ps.find? (fun t => t.1 == n) with
  | some t => some t.2.1
  | none => none

/-- Look up a fitted parameter standard error by name. -/
def lookupErr (ps : List (String × ℚ × PyVal)) (n : String) : PyVal :=
  match ps.find? (fun t => t.1 == n) with
  | some t => t.2.2
  | none => none

/-- Lines 121-139 of the source: one iteration of `for col in ys`.  The
column is `dropna`-ed, the parameter spec resolved on the cleaned data, the
solver run on `residual_func` with `args=(x, y, weights)` (or `(y, x,
weights)` for an inverted model), the residual re-indexed by the full
x-axis (`Series(result.residual, index=x)` raises when the lengths differ),
and the fitted curve evaluated at the final parameters over the full x-axis
(over the cleaned y-values for an inverted model). -/
def columnOutputs (plog : ℚ → ℚ) (m : Minimizer) (mf : ℚ → Params → PyVal)
    (spec : ParamSpec) (lr inv : Bool) (idx : List ℚ) (w : Option PSeries)
    (c : String × List PyVal) : Except String ColOut :=
  let y := (colSeries idx c.2).dropna
  let p := resolveParams spec y
  let res :=
    if inv then m (fun q => residual_func plog lr mf q y (xSeries idx) w) p
    else m (fun q => residual_func plog lr mf q (xSeries idx) y w) p
  if res.residual.length = idx.length then
    let rp : Params := res.params.map (fun t => (t.1, t.2.1))
    .ok { label := c.1
          resParams := res.params
          residSer := ⟨idx.zip res.residual⟩
          fitSer := if inv then y.apply (fun v => mf v rp)
                    else (xSeries idx).apply (fun v => mf v rp) }
  else .error "Length of passed values does not match length of index"

/-- A string-labelled frame (the values/stderr result tables): row labels
and labelled columns of cells. -/
structure SFrame where
  idx : List String
  cols : List (String × List PyVal)
deriving DecidableEq, Repr

/-- Model of `DataFrame.T`: rows become columns and columns become rows. -/
def SFrame.transpose (f : SFrame) : SFrame :=
  ⟨f.cols.map Prod.fst,
   f.idx.enum.map (fun p => (p.2, f.cols.map (fun c => c.2.getD p.1 none)))⟩

/-- What `NLS` stores on the `Result` instance (lines 141-146): the
transposed values and stderr frames, the concatenated residual table
(stored under the attribute name `residuals`), the concatenated fits table
(stored under the attribute name `fits`), and the parameters of the last
column's fit (the curried `model` closure).  The module is Python 2 and
`Result` is declared without a base class, so it is an old-style class:
every one of these assignments writes directly into the instance
dictionary, bypassing the property setters declared at lines 32-58 — the
backing fields `_values`, `_stderr`, `_residual`, `_fits` are never
created. -/
structure ResultObj where
  valuesT : SFrame
  stderrT : SFrame
  residualsTab : List (String × PSeries)
  fitsTab : List (String × PSeries)
  modelParams : Params
deriving DecidableEq, Repr

/-- Errors raised when reading an attribute of a `Result` instance. -/
inductive PyErr where
  | typeError
  | attributeError
deriving DecidableEq, Repr

/-- The possible values of a `Result` attribute read. -/
inductive RVal where
  | frame (f : SFrame)
  | table (t : List (String × PSeries))
  | closure (p : Params)
deriving DecidableEq, Repr

/-- Attribute read on the populated `Result` instance, following Python 2
old-style-class attribute semantics for the class at lines 27-58 of the
source (the module uses `print` statements, so it is Python 2, and
`class Result:` has no base class):

* the instance dictionary is consulted first.  `NLS` assigned `values`,
  `stderr`, `residuals`, `fits` and `model` directly into it (old-style
  assignment never invokes a property setter), so reading any of those
  names succeeds and returns the stored object — including `fits`, whose
  instance attribute shadows the broken class property (`NLS` itself reads
  `r.fits` at line 149 when plotting);
* `residual` is NOT in the instance dictionary (`NLS` assigned the plural
  `residuals`), so the lookup falls through to the class, finds the
  `residual` property, and invokes its getter — which is declared with a
  spurious second argument (`def residual(self, value)` at line 45), so
  the call is one argument short and raises `TypeError`;
* the backing fields `_values`, `_stderr`, `_residual`, `_fits` were never
  created (the setters never ran), so reading them raises
  `AttributeError`. -/
def ResultObj.getattr (r : ResultObj) (name : String) : Except PyErr RVal :=
  if name = "values" then .ok (.frame r.valuesT)
  else if name = "stderr" then .ok (.frame r.stderrT)
  else if name = "residual" then .error .typeError
  else if name = "fits" then .ok (.table r.fitsTab)
  else if name = "residuals" then .ok (.table r.residualsTab)
  else if name = "model" then .ok (.closure r.modelParams)
  else .error .attributeError

/-- Lines 141-150 of the source: populate the `Result` instance from the
per-column outputs.  `values`/`stderr` are built with rows indexed by the
pre-loop parameter names (column assignment aligns the solver's parameter
series to that index) and then transposed; the residual and fit series are
concatenated keyed by column label; the `model` closure captures the last
column's final parameters. -/
def buildResult (p0 : Params) (outs : List ColOut) (lastOut : ColOut) : ResultObj :=
  let names := p0.map Prod.fst
  { valuesT := SFrame.transpose
      ⟨names, outs.map (fun o => (o.label, names.map (lookupVal o.resParams)))⟩
    stderrT := SFrame.transpose
      ⟨names, outs.map (fun o => (o.label, names.map (lookupErr o.resParams)))⟩
    residualsTab := outs.map (fun o => (o.label, o.residSer))
    fitsTab := outs.map (fun o => (o.label, o.fitSer))
    modelParams := lastOut.resParams.map (fun t => (t.1, t.2.1)) }

/-- Lines 60-150 of the source: `NLS`.  Validate the weight length, resolve
the parameter spec once (a callable receives the raw first column), run the
per-column loop, and aggregate.  `pd.concat` of an empty dict raises, so an
empty frame fails at aggregation time. -/
def NLS (plog : ℚ → ℚ) (m : Minimizer) (data : PDataFrame)
    (mf : ℚ → Params → PyVal) (spec : ParamSpec)
    (weights : Option (List PyVal)) (lr inv : Bool) :
    Except String ResultObj :=
  match checkWeights data weights with
  | .error e => .error e
  | .ok w =>
    match initParams spec data with
    | .error e => .error e
    | .ok p0 =>
      match exMapM (columnOutputs plog m mf spec lr inv data.idx w) data.cols with
      | .error e => .error e
      | .ok outs =>
        match outs.getLast? with
        | none => .error "No objects to concatenate"
        | some lastOut => .ok (buildResult p0 outs lastOut)

/-- Model of numpy sum reduction over a float vector: NaN-propagating. -/
def npSum (l : List PyVal) : PyVal :=
  if l.all (fun v => v.isSome) then some (l.filterMap id).sum else none

/-- Model of `np.mean`: the NaN-propagating sum over the length (an empty
vector gives `0/0`, i.e. NaN). -/
def npMean (l : List PyVal) : PyVal :=
  pvDiv (npSum l) (some (l.length : ℚ))

/-- Model of `scipy.stats.linregress` restricted to the two outputs the
source uses: slope and intercept of the ordinary least-squares line,
computed from centred sums.  Arrays of different lengths cannot be
multiplied elementwise, so the call raises. -/
def linregress (xs ys : List PyVal) : Except String (PyVal × PyVal) :=
  if xs.length = ys.length then
    let xmean := npMean xs
    let ymean := npMean ys
    let xd := xs.map (fun v => pvSub v xmean)
    let yd := ys.map (fun v => pvSub v ymean)
    let rnum := npSum ((xd.zip yd).map (fun pr => pvMul pr.1 pr.2))
    let ssxm := npSum (xd.map (fun v => pvMul v v))
    let slope := pvDiv rnum ssxm
    let intercept := pvSub ymean (pvMul slope xmean)
    .ok (slope, intercept)
  else .error "operands could not be broadcast together"

/-- Lines 152-170 of the source: `fit_powerlaw`.  For each column, drop the
missing values of `y`, regress `np.log(y)` on `np.log(x)` (the full
x-axis: the log of the x Series and of the dropped y Series are handed to
`linregress` positionally), store `[slope, exp(intercept)]` under the
column label in a frame indexed by `['n', 'A']`, and finally transpose.
The per-column fitted curves `exp(intercept) * x ** slope` (lines 157, 164,
166) are computed only to be handed to the external plotting collaborator
and are not part of the return value, but concatenating them raises on an
empty frame.  The `print` at line 162 is an external side effect. -/
def fit_powerlaw (plog pexp : ℚ → ℚ) (data : PDataFrame) :
    Except String SFrame :=
  let xl : List PyVal := data.idx.map (fun i => npLogQ plog i)
  match exMapM (fun (c : String × List PyVal) =>
      let y := (colSeries data.idx c.2).dropna
      let yl := (y.npLog plog).values
      match linregress xl yl with
      | .error e => .error e
      | .ok si => .ok (c.1, [si.1, si.2.map pexp])) data.cols with
  | .error e => .error e
  | .ok cols =>
    if cols.isEmpty then .error "No objects to concatenate"
    else .ok (SFrame.transpose ⟨["n", "A"], cols⟩)

/-! Concrete fixtures used to evaluate the embedding on explicit inputs. -/

/-- A concrete abstract logarithm/exponential (the identity), legitimate
because the embedding is parametric in the float transcendentals. -/
def idQ : ℚ → ℚ := fun q => q

/-- A concrete solver oracle: return the initial parameters (no standard
errors) and the objective evaluated there, reporting convergence. -/
def mTriv : Minimizer := fun obj p =>
  { params := p.map (fun pr => (pr.1, pr.2, none)), residual := obj p, success := true }

/-- The same solver oracle, but reporting non-convergence for every
column. -/
def mFailAll : Minimizer := fun obj p =>
  { params := p.map (fun pr => (pr.1, pr.2, none)), residual := obj p, success := false }

/-- A concrete model function: the constant zero model. -/
def cZero : ℚ → Params → PyVal := fun _ _ => some 0

/-- A two-column table over x-axis [1, 2, 3]: column `a` has a missing
value at row 2, column `b` is complete. -/
def dMiss : PDataFrame :=
  ⟨[1, 2, 3], [("a", [some 1, none, some 3]), ("b", [some 4, some 5, some 6])]⟩

/-- A one-column table whose single column is entirely missing. -/
def dAllMiss : PDataFrame :=
  ⟨[1, 2, 3], [("a", [none, none, none])]⟩

/-- A one-column table with a negative y-value (log-domain violation). -/
def dNeg : PDataFrame :=
  ⟨[1, 2, 3], [("a", [some (-1), some 2, some 3])]⟩

/-- A one-column table with a missing value, for the power-law path. -/
def dMissOne : PDataFrame :=
  ⟨[1, 2, 3], [("a", [some 1, none, some 3])]⟩

/-- A complete, positive one-column table for the power-law path. -/
def dPow : PDataFrame :=
  ⟨[1, 2], [("a", [some 1, some 2])]⟩

/-! Specification-side definitions, written from the spec's words, used to
state the claims as refinements of the code-side definitions. -/

/-- The raw log-space residual described by the spec: pointwise
`log(observed) - log(predicted)`, where the prediction is the model applied
across the first argument, with `none` at every point where the value is
not finite (log of a non-positive number, a missing observation, or a
point present on only one side of the alignment). -/
def specLogDiff (plog : ℚ → ℚ) (mf : ℚ → Params → PyVal) (q : Params)
    (x y : PSeries) : PSeries :=
  (y.npLog plog).sub ((x.apply (fun v => mf v q)).npLog plog)

/-- The mean of the finite residuals of an evaluation, as the spec phrases
the substitution policy: collect the finite entries and average them (no
finite entries: no mean, i.e. NaN). -/
def specFiniteMean (s : PSeries) : PyVal :=
  let fin := (s.data.map Prod.snd).reduceOption
  if fin.length = 0 then none else some (fin.sum / fin.length)

/-- The ordinary-least-squares slope of `ys` on `xs` described by the spec,
as the closed-form centred-moment quotient. -/
def specOlsSlope (xs ys : List ℚ) : ℚ :=
  (((xs.zip ys).map
      (fun pr => (pr.1 - xs.sum / xs.length) * (pr.2 - ys.sum / ys.length))).sum) /
    ((xs.map (fun v => (v - xs.sum / xs.length) ^ 2)).sum)

/-- The ordinary-least-squares intercept of `ys` on `xs`. -/
def specOlsIntercept (xs ys : List ℚ) : ℚ :=
  ys.sum / ys.length - specOlsSlope xs ys * (xs.sum / xs.length)

/-- The centred second moment of the regressor: the regression is
well-defined exactly when it is nonzero. -/
def specSsxm (xs : List ℚ) : ℚ :=
  (xs.map (fun v => (v - xs.sum / xs.length) ^ 2)).sum

/-- The concrete result of the `NLS` run on `dMiss` with the trivial solver
oracle and the constant-zero model (used to instantiate hypotheses of the
general theorems at an explicit input). -/
def rMiss : ResultObj :=
  { valuesT := ⟨["a", "b"], [("c", [some 0, some 0])]⟩
    stderrT := ⟨["a", "b"], [("c", [none, none])]⟩
    residualsTab := [("a", ⟨[(1, some 1), (2, some 2), (3, some 3)]⟩),
                     ("b", ⟨[(1, some 4), (2, some 5), (3, some 6)]⟩)]
    fitsTab := [("a", ⟨[(1, some 0), (2, some 0), (3, some 0)]⟩),
                ("b", ⟨[(1, some 0), (2, some 0), (3, some 0)]⟩)]
    modelParams := [("c", 0)] }

/-- A concrete parameter factory: one parameter whose initial value is the
length of the column it is derived from. -/
def fLen : PSeries → Params := fun s => [("c", (s.data.length : ℚ))]

/-- A factory agreeing with `fLen` on every series of length other than 99
(in particular on all cleaned columns and the raw first column of `dMiss`),
but differing elsewhere. -/
def gLen : PSeries → Params := fun s =>
  if s.data.length = 99 then [] else fLen s

/-- The concrete result of the `NLS` run on `dMiss` with the trivial solver
oracle, the constant-zero model and the `fLen` parameter factory. -/
def rFac : ResultObj :=
  { valuesT := ⟨["a", "b"], [("c", [some 2, some 3])]⟩
    stderrT := ⟨["a", "b"], [("c", [none, none])]⟩
    residualsTab := [("a", ⟨[(1, some 1), (2, some 2), (3, some 3)]⟩),
                     ("b", ⟨[(1, some 4), (2, some 5), (3, some 6)]⟩)]
    fitsTab := [("a", ⟨[(1, some 0), (2, some 0), (3, some 0)]⟩),
                ("b", ⟨[(1, some 0), (2, some 0), (3, some 0)]⟩)]
    modelParams := [("c", 3)] }

/-! Helper lemmas. -/

/-- A successful column iteration is labelled by its column. -/
theorem columnOutputs_label (plog : ℚ → ℚ) (m : Minimizer)
    (mf : ℚ → Params → PyVal) (spec : ParamSpec) (lr inv : Bool)
    (idx : List ℚ) (w : Option PSeries) (c : String × List PyVal)
    (o : ColOut) (h : columnOutputs plog m mf spec lr inv idx w c = .ok o) :
    o.label = c.1 := by
  simp only [columnOutputs] at h
  split at h <;> split at h
  all_goals first
    | (cases h; rfl)
    | exact Except.noConfusion h

/-- Error-propagating map: a successful run maps each element. -/
theorem exMapM_label {f : (String × List PyVal) → Except String ColOut}
    (hf : ∀ c o, f c = .ok o → o.label = c.1) :
    ∀ (cols : List (String × List PyVal)) (outs : List ColOut),
      exMapM f cols = .ok outs → outs.map ColOut.label = cols.map Prod.fst := by
  intro cols
  induction cols with
  | nil =>
    intro outs h
    simp only [exMapM] at h
    cases h
    rfl
  | cons c cs ih =>
    intro outs h
    simp only [exMapM] at h
    cases hfc : f c with
    | error e => rw [hfc] at h; exact Except.noConfusion h
    | ok b =>
      rw [hfc] at h
      cases hrest : exMapM f cs with
      | error e => rw [hrest] at h; exact Except.noConfusion h
      | ok bs =>
        rw [hrest] at h
        cases h
        simp only [List.map, hf c b hfc, ih bs hrest]

/-- Error-propagating map only depends on the values of the mapped function
at the elements of the list. -/
theorem exMapM_congr {α β : Type} {F G : α → Except String β} :
    ∀ (l : List α), (∀ a ∈ l, F a = G a) → exMapM F l = exMapM G l := by
  intro l
  induction l with
  | nil => intro _; rfl
  | cons a as ih =>
    intro hl
    simp only [exMapM, hl a (List.mem_cons_self a as), ih (fun b hb => hl b (List.mem_cons_of_mem a hb))]

/-- Transposition swaps the label lists. -/
theorem transpose_idx (i : List String) (cs : List (String × List PyVal)) :
    (SFrame.transpose ⟨i, cs⟩).idx = cs.map Prod.fst := rfl

/-- The column labels of a transposed frame are the original row labels. -/
theorem transpose_cols_fst (i : List String) (cs : List (String × List PyVal)) :
    (SFrame.transpose ⟨i, cs⟩).cols.map Prod.fst = i := by
  simp only [SFrame.transpose, List.map_map]
  exact List.enum_map_snd i

/-- The pre-loop parameter resolution yields exactly the names
`initParamNames` describes. -/
theorem initParams_names (spec : ParamSpec) (data : PDataFrame) (p0 : Params)
    (h : initParams spec data = .ok p0) :
    p0.map Prod.fst = initParamNames spec data := by
  cases spec with
  | static p =>
    cases h
    rfl
  | factory f =>
    cases hc : data.cols with
    | nil => rw [initParams, hc] at h; exact Except.noConfusion h
    | cons c cs =>
      rw [initParams, hc] at h
      cases h
      simp only [initParamNames, rawCol0, hc]

/-- Shape of every successful `NLS` result: the values and stderr tables
are row-indexed by the input's column labels and column-indexed by the
pre-loop parameter names. -/
theorem NLS_ok_shape (plog : ℚ → ℚ) (m : Minimizer) (data : PDataFrame)
    (mf : ℚ → Params → PyVal) (spec : ParamSpec) (w : Option (List PyVal))
    (lr inv : Bool) (r : ResultObj)
    (h : NLS plog m data mf spec w lr inv = .ok r) :
    r.valuesT.idx = data.cols.map Prod.fst ∧
    r.valuesT.cols.map Prod.fst = initParamNames spec data ∧
    r.stderrT.idx = data.cols.map Prod.fst ∧
    r.stderrT.cols.map Prod.fst = initParamNames spec data := by
  unfold NLS at h
  cases hcw : checkWeights data w with
  | error e => rw [hcw] at h; exact Except.noConfusion h
  | ok w2 =>
    rw [hcw] at h
    dsimp only at h
    cases hip : initParams spec data with
    | error e => rw [hip] at h; exact Except.noConfusion h
    | ok p0 =>
      rw [hip] at h
      dsimp only at h
      cases hmap : exMapM (columnOutputs plog m mf spec lr inv data.idx w2) data.cols with
      | error e => rw [hmap] at h; exact Except.noConfusion h
      | ok outs =>
        rw [hmap] at h
        dsimp only at h
        cases hlast : outs.getLast? with
        | none => rw [hlast] at h; exact Except.noConfusion h
        | some lastOut =>
          rw [hlast] at h
          dsimp only at h
          cases h
          have hlab : outs.map ColOut.label = data.cols.map Prod.fst :=
            exMapM_label (fun c o ho => columnOutputs_label plog m mf spec lr inv data.idx w2 c o ho) data.cols outs hmap
          have hnm : p0.map Prod.fst = initParamNames spec data := initParams_names spec data p0 hip



          refine ⟨?_, ?_, ?_, ?_⟩
          · show (SFrame.transpose ⟨_, _⟩).idx = _
            rw [transpose_idx, List.map_map]
            exact hlab
          · show (SFrame.transpose ⟨_, _⟩).cols.map Prod.fst = _
            rw [transpose_cols_fst]
            exact hnm
          · show (SFrame.transpose ⟨_, _⟩).idx = _
            rw [transpose_idx, List.map_map]
            exact hlab
          · show (SFrame.transpose ⟨_, _⟩).cols.map Prod.fst = _
            rw [transpose_cols_fst]
            exact hnm

/-- `NLS` depends on a callable parameter spec only through its values on
the raw first column (pre-loop resolution) and on the cleaned columns
(in-loop resolutions). -/
theorem NLS_factory_congr (plog : ℚ → ℚ) (m : Minimizer) (data : PDataFrame)
    (mf : ℚ → Params → PyVal) (f g : PSeries → Params)
    (w : Option (List PyVal)) (lr inv : Bool)
    (hcols : ∀ c ∈ data.cols,
      g ((colSeries data.idx c.2).dropna) = f ((colSeries data.idx c.2).dropna))
    (h0 : g (rawCol0 data) = f (rawCol0 data)) :
    NLS plog m data mf (.factory g) w lr inv =
      NLS plog m data mf (.factory f) w lr inv := by
  unfold NLS
  cases checkWeights data w with
  | error e => rfl
  | ok w2 =>
    dsimp only
    have hip : initParams (.factory g) data = initParams (.factory f) data := by
      unfold initParams
      cases hc : data.cols with
      | nil => rfl
      | cons c cs =>
        rw [rawCol0, hc] at h0
        dsimp only at h0 ⊢
        rw [h0]
    have hmap : exMapM (columnOutputs plog m mf (.factory g) lr inv data.idx w2) data.cols =
        exMapM (columnOutputs plog m mf (.factory f) lr inv data.idx w2) data.cols := by
      refine exMapM_congr data.cols (fun c hc => ?_)
      simp only [columnOutputs, resolveParams, hcols c hc]
    rw [hip, hmap]

/-- Aligned operation of two series with identical indices: pandas pairs
the rows pointwise. -/
theorem mergeOpAux_eq_index (g : PyVal → PyVal → PyVal) :
    ∀ (n : ℕ) (a b : List (ℚ × PyVal)), a.length + b.length ≤ n →
      a.map Prod.fst = b.map Prod.fst →
      mergeOpAux g n a b = (a.zip b).map (fun pr => (pr.1.1, g pr.1.2 pr.2.2)) := by
  intro n
  induction n with
  | zero =>
    intro a b hn hab
    cases a with
    | nil =>
      cases b with
      | nil => rfl
      | cons y ys => simp at hab
    | cons x xs => simp at hn
  | succ n ih =>
    intro a b hn hab
    cases a with
    | nil =>
      cases b with
      | nil => rfl
      | cons y ys => simp at hab
    | cons x xs =>
      cases b with
      | nil => simp at hab
      | cons y ys =>
        obtain ⟨i, va⟩ := x
        obtain ⟨j, vb⟩ := y
        simp only [List.map_cons, List.cons.injEq] at hab
        obtain ⟨h1, h2⟩ := hab
        subst h1
        rw [mergeOpAux, if_neg (lt_irrefl i), if_neg (lt_irrefl i)]
        simp only [List.zip_cons_cons, List.map_cons]
        refine congrArg _ ?_
        refine ih xs ys ?_ h2
        simp only [List.length_cons] at hn
        omega

/-- Multiplying a series by the all-ones series on its own index leaves it
unchanged. -/
theorem mul_ones_self (l : List (ℚ × PyVal)) :
    mergeOp pvMul l (l.map (fun pr => (pr.1, some (1 : ℚ)))) = l := by
  rw [mergeOp, mergeOpAux_eq_index pvMul _ l _ (by simp) (by simp)]
  induction l with
  | nil => rfl
  | cons x xs ih =>
    obtain ⟨i, v⟩ := x
    simp only [List.map_cons, List.zip_cons_cons, ih]
    cases v <;> simp [pvMul, pvBin]

/-- The index of an aligned operation whose first index is a sublist of the
second, sorted one is the second index. -/
theorem mergeOpAux_fst_sublist (g : PyVal → PyVal → PyVal) :
    ∀ (n : ℕ) (a b : List (ℚ × PyVal)), a.length + b.length ≤ n →
      (a.map Prod.fst).Sublist (b.map Prod.fst) →
      (b.map Prod.fst).Sorted (· < ·) →
      (mergeOpAux g n a b).map Prod.fst = b.map Prod.fst := by
  intro n
  induction n with
  | zero =>
    intro a b hn hsub hsort
    cases a with
    | nil =>
      cases b with
      | nil => rfl
      | cons y ys => simp at hn
    | cons x xs => simp at hn
  | succ n ih =>
    intro a b hn hsub hsort
    cases a with
    | nil =>
      cases b with
      | nil => rfl
      | cons y ys => simp [mergeOpAux, List.map_map]
    | cons x xs =>
      cases b with
      | nil => simp at hsub
      | cons y ys =>
        obtain ⟨i, va⟩ := x
        obtain ⟨j, vb⟩ := y
        simp only [List.map_cons] at hsub hsort
        have hsort2 := (List.sorted_cons.mp hsort).2
        have hjlt := (List.sorted_cons.mp hsort).1
        by_cases hij : i = j
        · subst hij
          have hxs : (xs.map Prod.fst).Sublist (ys.map Prod.fst) := by
            cases hsub with
            | cons _ h => exact (List.sublist_cons_self i (xs.map Prod.fst)).trans h
            | cons₂ _ h => exact h
          rw [mergeOpAux, if_neg (lt_irrefl i), if_neg (lt_irrefl i)]
          simp only [List.map_cons, List.length_cons] at hn ⊢
          rw [ih xs ys (by omega) hxs hsort2]
        · have hiys : i ∈ ys.map Prod.fst := by
            have := hsub.mem (List.mem_cons_self i (xs.map Prod.fst))
            cases List.mem_cons.mp this with
            | inl h => exact absurd h hij
            | inr h => exact h
          have hji : j < i := hjlt i hiys
          have htail : ((i, va) :: xs).map Prod.fst |>.Sublist (ys.map Prod.fst) := by
            cases hsub with
            | cons _ h => exact h
            | cons₂ _ h => exact absurd rfl hij
          rw [mergeOpAux, if_neg (asymm hji), if_pos hji]
          simp only [List.map_cons, List.length_cons] at hn ⊢
          rw [ih ((i, va) :: xs) ys (by simp; omega) htail hsort2]

/-- The index labels of a zip project to a sublist of the left factor. -/
theorem zip_map_fst_sublist :
    ∀ (l1 : List ℚ) (l2 : List PyVal), ((l1.zip l2).map Prod.fst).Sublist l1 := by
  intro l1
  induction l1 with
  | nil => intro l2; simp
  | cons x xs ih =>
    intro l2
    cases l2 with
    | nil => simp
    | cons y ys =>
      simp only [List.zip_cons_cons, List.map_cons]
      exact (ih ys).cons₂ x

/-- Zipping a list with a same-length constant list pairs every element
with the constant. -/
theorem zip_replicate_eq_map (v : PyVal) :
    ∀ (l : List ℚ), l.zip (List.replicate l.length v) = l.map (fun i => (i, v)) := by
  intro l
  induction l with
  | nil => rfl
  | cons x xs ih => simp only [List.length_cons, List.replicate, List.zip_cons_cons, List.map_cons, ih]

/-- Mapping the cells of a pair list preserves the index labels. -/
theorem map_fst_mapVals (f : ℚ × PyVal → PyVal) (l : List (ℚ × PyVal)) :
    (l.map (fun pr => (pr.1, f pr))).map Prod.fst = l.map Prod.fst := by
  induction l with
  | nil => rfl
  | cons x xs ih => simp only [List.map_cons, ih]

/-- The x-axis series is indexed by the x-axis. -/
theorem xSeries_fst (idx : List ℚ) : (xSeries idx).data.map Prod.fst = idx := by
  induction idx with
  | nil => rfl
  | cons i is ih =>
    simp only [xSeries, List.map_cons] at ih ⊢
    rw [ih]

/-- `Series.apply` preserves the index. -/
theorem apply_fst (f : ℚ → PyVal) (s : PSeries) :
    (s.apply f).data.map Prod.fst = s.data.map Prod.fst := by
  simp only [PSeries.apply]
  exact map_fst_mapVals _ _

/-- `mapVals` preserves the index. -/
theorem mapVals_fst (g : PyVal → PyVal) (s : PSeries) :
    (s.mapVals g).data.map Prod.fst = s.data.map Prod.fst := by
  simp only [PSeries.mapVals]
  exact map_fst_mapVals _ _

/-- Elementwise log preserves the index. -/
theorem npLog_fst (plog : ℚ → ℚ) (s : PSeries) :
    (s.npLog plog).data.map Prod.fst = s.data.map Prod.fst := by
  simp only [PSeries.npLog]
  exact mapVals_fst _ _

/-- `fillna` preserves the index. -/
theorem fillna_fst (v : PyVal) (s : PSeries) :
    (s.fillna v).data.map Prod.fst = s.data.map Prod.fst := by
  simp only [PSeries.fillna]
  exact mapVals_fst _ _

/-- Subtracting a series whose index is a sublist of the (sorted) index of
the subtrahend aligns onto the full index of the subtrahend. -/
theorem sub_fst_of_sublist (a b : PSeries)
    (hsub : (a.data.map Prod.fst).Sublist (b.data.map Prod.fst))
    (hsort : (b.data.map Prod.fst).Sorted (· < ·)) :
    (a.sub b).data.map Prod.fst = b.data.map Prod.fst := by
  show (mergeOp pvSub a.data b.data).map Prod.fst = _
  rw [mergeOp]
  exact mergeOpAux_fst_sublist pvSub _ a.data b.data (le_refl _) hsub hsort

/-- Pairing a projected index back with a constant value recovers a map on
the original pair list. -/
theorem map_fst_pair (l : List (ℚ × PyVal)) (v : PyVal) :
    (l.map Prod.fst).map (fun i => (i, v)) = l.map (fun pr => (pr.1, v)) := by
  induction l with
  | nil => rfl
  | cons x xs ih => simp only [List.map_cons, ih]

/-- The index of the (mean-substituted) residual series built over the full
x-axis is the full, sorted x-axis: the cleaned y index is a sublist of it,
and alignment against the model prediction over the full axis restores
every row. -/
theorem preWeightE_fst (plog : ℚ → ℚ) (lr : Bool) (mf : ℚ → Params → PyVal)
    (q : Params) (idx : List ℚ) (vals : List PyVal)
    (hs : idx.Sorted (· < ·)) :
    (preWeightE plog lr mf q (xSeries idx) ((colSeries idx vals).dropna)).data.map Prod.fst = idx := by
  have hff : ((xSeries idx).apply (fun v => mf v q)).data.map Prod.fst = idx := by
    rw [apply_fst, xSeries_fst]
  have hyf : (((colSeries idx vals).dropna).data.map Prod.fst).Sublist idx := by
    refine List.Sublist.trans ?_ (zip_map_fst_sublist idx vals)
    exact List.Sublist.map Prod.fst (List.filter_sublist _)
  rw [preWeightE]
  cases lr with
  | false =>
    rw [if_neg (by simp), fillna_fst]
    rw [sub_fst_of_sublist _ _ (by rw [hff]; exact hyf) (by rw [hff]; exact hs), hff]
  | true =>
    rw [if_pos rfl, fillna_fst]
    rw [sub_fst_of_sublist _ _ (by rw [npLog_fst, npLog_fst, hff]; exact hyf)
      (by rw [npLog_fst, hff]; exact hs), npLog_fst, hff]

/-- A weight series of ones on the residual's own index is absorbed by the
elementwise multiplication. -/
theorem residual_func_ones (plog : ℚ → ℚ) (lr : Bool)
    (mf : ℚ → Params → PyVal) (q : Params) (x y : PSeries) (w : PSeries)
    (hw : w.data = (preWeightE plog lr mf q x y).data.map (fun pr => (pr.1, some (1 : ℚ)))) :
    residual_func plog lr mf q x y (some w) = residual_func plog lr mf q x y none := by
  simp only [residual_func, PSeries.mul, hw]
  rw [mul_ones_self]

/-- Uniform unit weights leave every `NLS` run unchanged (non-inverted
model, sorted x-axis). -/
theorem NLS_unit_weights (plog : ℚ → ℚ) (m : Minimizer) (data : PDataFrame)
    (mf : ℚ → Params → PyVal) (spec : ParamSpec) (lr : Bool)
    (hs : data.idx.Sorted (· < ·)) :
    NLS plog m data mf spec (some (List.replicate data.idx.length (some (1 : ℚ)))) lr false =
      NLS plog m data mf spec none lr false := by
  unfold NLS
  have hcw : checkWeights data (some (List.replicate data.idx.length (some (1 : ℚ)))) =
      .ok (some ⟨data.idx.map (fun i => (i, some (1 : ℚ)))⟩) := by
    simp [checkWeights, zip_replicate_eq_map]
  rw [hcw]
  dsimp only
  have hmap : exMapM (columnOutputs plog m mf spec lr false data.idx
        (some ⟨data.idx.map (fun i => (i, some (1 : ℚ)))⟩)) data.cols =
      exMapM (columnOutputs plog m mf spec lr false data.idx none) data.cols := by
    refine exMapM_congr data.cols (fun c _ => ?_)
    have hres : (fun q => residual_func plog lr mf q (xSeries data.idx)
          ((colSeries data.idx c.2).dropna) (some ⟨data.idx.map (fun i => (i, some (1 : ℚ)))⟩)) =
        (fun q => residual_func plog lr mf q (xSeries data.idx)
          ((colSeries data.idx c.2).dropna) none) := by
      funext q
      refine residual_func_ones plog lr mf q _ _ _ ?_
      show data.idx.map (fun i => (i, some (1 : ℚ))) = _
      rw [← map_fst_pair ((preWeightE plog lr mf q (xSeries data.idx)
        ((colSeries data.idx c.2).dropna)).data) (some (1 : ℚ)),
        preWeightE_fst plog lr mf q data.idx c.2 hs]
    simp only [columnOutputs, Bool.false_eq_true, if_false, hres]
  rw [hmap]
  rfl

/-- C1: with the constant-zero model on `dMiss`, the stored residual series
for column `a` (missing at row 2) spans the FULL x-axis [1, 2, 3]: the
entry at the missing row x = 2 is present with value 2 — the mean of the
finite residuals 1 and 3 — rather than being excluded.  The solver's
objective is `residual_func` over the full x-series, so the row also enters
the fitted-parameter computation.  This contradicts the claim (and the
docstring "Missing values will be ignored"): the excluded row appears in
the residual series and in the fit, mean-substituted. -/
theorem c1_missing_row_mean_filled :
    (NLS idQ mTriv dMiss cZero (ParamSpec.static [("c", 0)]) none false
        false).toOption.map (fun r => r.residualsTab) =
      some [("a", ⟨[(1, some 1), (2, some 2), (3, some 3)]⟩),
            ("b", ⟨[(1, some 4), (2, some 5), (3, some 6)]⟩)] := by
  simp only [NLS, checkWeights, initParams, exMapM, columnOutputs, colSeries, xSeries,
    resolveParams, mTriv, dMiss, cZero, idQ, residual_func, preWeightE, PSeries.dropna,
    PSeries.apply, PSeries.sub, PSeries.npLog, PSeries.mapVals, PSeries.fillna,
    PSeries.meanVal, PSeries.values, mergeOp, mergeOpAux, buildResult, SFrame.transpose,
    lookupVal, lookupErr, List.zip, List.zipWith, List.filter, List.map, List.filterMap,
    List.enum, List.getLast?, Option.bind, npLogQ, pvSub, pvMul, pvBin, Except.toOption,
    Option.map]
  norm_num

/-- C3: a successful `NLS` run returns a `Result` on which reading the
declared `residual` accessor raises `TypeError`: the residual table was
assigned under the undeclared plural name `residuals` (line 144), so the
lookup falls through to the class property whose getter is declared with a
spurious second argument.  The backing field `_residual` (and every other
underscore field) was never created, since old-style attribute assignment
bypasses the property setters.  The concatenated residual table is held,
but only under the undeclared name `residuals`; the fits table is readable
as `fits` only because the instance attribute shadows the equally broken
class property.  So the claim fails on its residual half: the residual
series table is not retrievable through the declared accessor — reading it
raises instead. -/
theorem c3_broken_accessors :
    (NLS idQ mTriv dMiss cZero (ParamSpec.static [("c", 0)]) none false
        false).toOption.map
      (fun r => (r.getattr "residual", r.getattr "_residual",
        r.getattr "fits", r.getattr "residuals")) =
      some (Except.error PyErr.typeError, Except.error PyErr.attributeError,
        Except.ok (RVal.table [("a", ⟨[(1, some 0), (2, some 0), (3, some 0)]⟩),
          ("b", ⟨[(1, some 0), (2, some 0), (3, some 0)]⟩)]),
        Except.ok (RVal.table [("a", ⟨[(1, some 1), (2, some 2), (3, some 3)]⟩),
          ("b", ⟨[(1, some 4), (2, some 5), (3, some 6)]⟩)])) := by
  simp only [NLS, checkWeights, initParams, exMapM, columnOutputs, colSeries, xSeries,
    resolveParams, mTriv, dMiss, cZero, idQ, residual_func, preWeightE, PSeries.dropna,
    PSeries.apply, PSeries.sub, PSeries.npLog, PSeries.mapVals, PSeries.fillna,
    PSeries.meanVal, PSeries.values, mergeOp, mergeOpAux, buildResult, SFrame.transpose,
    lookupVal, lookupErr, List.zip, List.zipWith, List.filter, List.map, List.filterMap,
    List.enum, List.getLast?, Option.bind, npLogQ, pvSub, pvMul, pvBin, Except.toOption,
    Option.map, ResultObj.getattr, String.reduceEq, reduceIte]
  norm_num

/-- C4: a solver that reports non-convergence on every column produces a
result identical, field for field, to the one produced by a solver that
reports success — `NLS` never reads the convergence flag, so no per-column
diagnostic of any kind is attached (first conjunct).  The loop does
continue past a failed column: both column labels appear as rows of the
values table (second conjunct). -/
theorem c4_no_convergence_diagnostic :
    NLS idQ mFailAll dMiss cZero (ParamSpec.static [("c", 0)]) none false false =
      NLS idQ mTriv dMiss cZero (ParamSpec.static [("c", 0)]) none false false ∧
    (NLS idQ mFailAll dMiss cZero (ParamSpec.static [("c", 0)]) none false
        false).toOption.map (fun r => r.valuesT.idx) = some ["a", "b"] := by
  refine ⟨?_, ?_⟩ <;>
  · simp only [NLS, checkWeights, initParams, exMapM, columnOutputs, colSeries, xSeries,
      resolveParams, mTriv, mFailAll, dMiss, cZero, idQ, residual_func, preWeightE,
      PSeries.dropna, PSeries.apply, PSeries.sub, PSeries.npLog, PSeries.mapVals,
      PSeries.fillna, PSeries.meanVal, PSeries.values, mergeOp, mergeOpAux, buildResult,
      SFrame.transpose, lookupVal, lookupErr, List.zip, List.zipWith, List.filter,
      List.map, List.filterMap, List.enum, List.getLast?, Option.bind, npLogQ, pvSub,
      pvMul, pvBin, Except.toOption, Option.map]
    norm_num

/-- The NaN-propagating sum of an all-finite vector is the plain sum. -/
theorem npSum_map_some (l : List ℚ) : npSum (l.map some) = some l.sum := by
  rw [npSum, if_pos (by simp)]
  congr 1
  induction l with
  | nil => rfl
  | cons x xs ih => simp only [List.map_cons, List.filterMap_cons, id, List.sum_cons, ih]

/-- The NaN-propagating mean of a nonempty all-finite vector is the plain
mean. -/
theorem npMean_map_some (l : List ℚ) (h : l ≠ []) :
    npMean (l.map some) = some (l.sum / l.length) := by
  have hlen : (l.length : ℚ) ≠ 0 := by
    exact_mod_cast fun hh => h (List.length_eq_zero.mp hh)
  rw [npMean, npSum_map_some]
  simp only [pvDiv, List.length_map, if_neg hlen]

/-- An elementwise cell operation restricted to finite cells computes the
underlying float operation. -/
theorem map_comp_some (f : ℚ → ℚ) (g : PyVal → PyVal)
    (h : ∀ x, g (some x) = some (f x)) (l : List ℚ) :
    (l.map some).map g = (l.map f).map some := by
  induction l with
  | nil => rfl
  | cons x xs ih => simp only [List.map_cons, h, ih]

/-- Elementwise products of two all-finite vectors are the plain products. -/
theorem zip_map_some_mul :
    ∀ (a b : List ℚ), ((a.map some).zip (b.map some)).map (fun pr => pvMul pr.1 pr.2) =
      ((a.zip b).map (fun p => p.1 * p.2)).map some := by
  intro a
  induction a with
  | nil => intro b; rfl
  | cons x xs ih =>
    intro b
    cases b with
    | nil => rfl
    | cons y ys =>
      simp only [List.map_cons, List.zip_cons_cons, ih]
      rfl

/-- Reduction of the final slope/intercept cells of `linregress` on finite
centred sums with a nonzero denominator. -/
theorem pv_final (R S ybar xbar sp spI : ℚ) (hS : S ≠ 0) (h1 : sp = R / S)
    (h2 : spI = ybar - sp * xbar) :
    (Except.ok (pvDiv (some R) (some S),
        pvSub (some ybar) (pvMul (pvDiv (some R) (some S)) (some xbar))) :
      Except String (PyVal × PyVal)) = .ok (some sp, some spI) := by
  subst h1
  subst h2
  simp [pvDiv, pvSub, pvMul, pvBin, hS]

/-- `linregress` on all-finite inputs of equal length with a nondegenerate
regressor computes exactly the ordinary-least-squares slope and
intercept. -/
theorem linregress_map_some (lx ly : List ℚ) (hlen : lx.length = ly.length)
    (hne : lx ≠ []) (hss : specSsxm lx ≠ 0) :
    linregress (lx.map some) (ly.map some) =
      .ok (some (specOlsSlope lx ly), some (specOlsIntercept lx ly)) := by
  have hlx : (lx.map some).length = (ly.map some).length := by simp [hlen]
  have hlyne : ly ≠ [] := by
    intro hh
    subst hh
    simp only [List.length_nil] at hlen
    exact hne (List.length_eq_zero.mp hlen)
  have hssm : ((lx.map (fun v => v - lx.sum / lx.length)).map (fun v => v * v)).sum ≠ 0 := by
    intro hh
    refine hss ?_
    rw [specSsxm, ← hh, List.map_map]
    refine congrArg List.sum (List.map_congr_left (fun a _ => ?_))
    simp [pow_two]
  have hslope : specOlsSlope lx ly =
      (((lx.map (fun v => v - lx.sum / lx.length)).zip
        (ly.map (fun v => v - ly.sum / ly.length))).map (fun p => p.1 * p.2)).sum /
      ((lx.map (fun v => v - lx.sum / lx.length)).map (fun v => v * v)).sum := by
    rw [specOlsSlope]
    congr 1
    · rw [List.zip_map, List.map_map]
      exact congrArg List.sum (List.map_congr_left (fun a _ => rfl))
    · rw [List.map_map]
      exact congrArg List.sum (List.map_congr_left (fun a _ => by simp [pow_two]))
  rw [linregress, if_pos hlx]
  simp only []
  rw [npMean_map_some lx hne, npMean_map_some ly hlyne]
  rw [map_comp_some (fun v => v - lx.sum / lx.length)
    (fun v => pvSub v (some (lx.sum / lx.length))) (fun x => rfl) lx]
  rw [map_comp_some (fun v => v - ly.sum / ly.length)
    (fun v => pvSub v (some (ly.sum / ly.length))) (fun x => rfl) ly]
  rw [zip_map_some_mul]
  rw [map_comp_some (fun v => v * v) (fun v => pvMul v v) (fun x => rfl)
    (lx.map (fun v => v - lx.sum / lx.length))]
  rw [npSum_map_some, npSum_map_some]
  exact pv_final _ _ _ _ _ _ hssm hslope rfl

/-- A list whose cells are all present is recovered from its compaction. -/
theorem reduceOption_map_some_of (l : List PyVal) (h : ∀ v ∈ l, v.isSome = true) :
    l.reduceOption.map some = l := by
  induction l with
  | nil => rfl
  | cons x xs ih =>
    cases x with
    | none => exact absurd (h none (List.mem_cons_self none xs)) (by simp)
    | some v =>
      simp only [List.reduceOption_cons_of_some, List.map_cons]
      rw [ih (fun w hw => h w (List.mem_cons_of_mem _ hw))]

/-- A pointwise-successful error-propagating map succeeds with the map of
results. -/
theorem exMapM_ok_of_forall {α β : Type} (F : α → Except String β) (G : α → β) :
    ∀ (l : List α), (∀ a ∈ l, F a = .ok (G a)) → exMapM F l = .ok (l.map G) := by
  intro l
  induction l with
  | nil => intro _; rfl
  | cons a as ih =>
    intro h
    rw [exMapM, h a (List.mem_cons_self a as), ih (fun b hb => h b (List.mem_cons_of_mem a hb))]
    rfl

/-- Elementwise log over a vector of present, positive cells computes the
abstract log of the compacted vector. -/
theorem bind_log_map (plog : ℚ → ℚ) (l2 : List PyVal)
    (hpos : ∀ v ∈ l2, ∃ q0, v = some q0 ∧ 0 < q0) :
    l2.map (fun v => v.bind (npLogQ plog)) = (l2.reduceOption.map plog).map some := by
  induction l2 with
  | nil => rfl
  | cons v vs ih =>
    obtain ⟨q0, hq, hq0⟩ := hpos v (List.mem_cons_self v vs)
    subst hq
    simp only [List.map_cons, Option.some_bind, List.reduceOption_cons_of_some]
    rw [ih (fun w hw => hpos w (List.mem_cons_of_mem _ hw))]
    simp [npLogQ, hq0]

/-- C5 amended: on a table with nonempty columns all of full height, with
positive x-values, positive and non-missing y-values and a nondegenerate
log-x axis, `fit_powerlaw` returns exactly the table indexed by column
label with columns `n` (the OLS slope of log y on log x) and `A` (the
exponentiated OLS intercept) — and nothing else: the fitted-curve table is
computed only for the external plotting collaborator and is not part of
the return value. -/
theorem c5_powerlaw_amended (plog pexp : ℚ → ℚ) (data : PDataFrame)
    (hne : data.cols ≠ [])
    (hlen : ∀ c ∈ data.cols, c.2.length = data.idx.length)
    (hx : ∀ i ∈ data.idx, 0 < i)
    (hy : ∀ c ∈ data.cols, ∀ v ∈ c.2, ∃ q0, v = some q0 ∧ 0 < q0)
    (hss : specSsxm (data.idx.map plog) ≠ 0) :
    fit_powerlaw plog pexp data = .ok
      ⟨data.cols.map Prod.fst,
       [("n", data.cols.map (fun c =>
            some (specOlsSlope (data.idx.map plog) (c.2.reduceOption.map plog)))),
        ("A", data.cols.map (fun c =>
            some (pexp (specOlsIntercept (data.idx.map plog) (c.2.reduceOption.map plog)))))]⟩ := by
  have hidxne : data.idx ≠ [] := by
    intro h
    apply hss
    rw [h]
    rfl
  have hlxne : data.idx.map plog ≠ [] := by
    simpa using hidxne
  have hxl : data.idx.map (fun i => npLogQ plog i) = (data.idx.map plog).map some := by
    rw [List.map_map]
    refine List.map_congr_left (fun i hi => ?_)
    simp [npLogQ, hx i hi, Function.comp]
  have hcols : ∀ c ∈ data.cols,
      (let y := (colSeries data.idx c.2).dropna
       let yl := (y.npLog plog).values
       match linregress (data.idx.map (fun i => npLogQ plog i)) yl with
       | .error e => .error e
       | .ok si => .ok (c.1, [si.1, si.2.map pexp])) =
      Except.ok ((c.1 : String), [some (specOlsSlope (data.idx.map plog) (c.2.reduceOption.map plog)),
        some (pexp (specOlsIntercept (data.idx.map plog) (c.2.reduceOption.map plog)))]) := by
    intro c hc
    have hzfull : ((colSeries data.idx c.2).dropna).data = data.idx.zip c.2 := by
      simp only [colSeries, PSeries.dropna]
      refine List.filter_eq_self.mpr (fun pr hpr => ?_)
      obtain ⟨q0, hq, _⟩ := hy c hc pr.2 (List.of_mem_zip hpr).2
      rw [hq]
      rfl
    have hredeq : c.2.reduceOption.map some = c.2 :=
      reduceOption_map_some_of c.2 (fun v hv => by
        obtain ⟨q0, hq, _⟩ := hy c hc v hv
        rw [hq]
        rfl)
    have hsnd : (data.idx.zip c.2).map Prod.snd = c.2 :=
      List.map_snd_zip _ _ (le_of_eq (hlen c hc))
    have hyl : (((colSeries data.idx c.2).dropna).npLog plog).values =
        (c.2.reduceOption.map plog).map some := by
      show ((((colSeries data.idx c.2).dropna).npLog plog).data.map (fun pr => pr.2)) = _
      simp only [PSeries.npLog, PSeries.mapVals, hzfull]
      calc List.map (fun (pr : ℚ × PyVal) => pr.2)
            (List.map (fun pr => (pr.1, pr.2.bind (npLogQ plog))) (data.idx.zip c.2))
          = ((data.idx.zip c.2).map Prod.snd).map (fun v => v.bind (npLogQ plog)) := by
            rw [List.map_map, List.map_map]
            rfl
        _ = c.2.map (fun v => v.bind (npLogQ plog)) := by rw [hsnd]
        _ = (c.2.reduceOption.map plog).map some := bind_log_map plog c.2 (hy c hc)
    have hlylen : (data.idx.map plog).length = (c.2.reduceOption.map plog).length := by
      have h1 : c.2.reduceOption.length = c.2.length := by
        have := congrArg List.length hredeq
        simpa using this
      simp [h1, hlen c hc]
    simp only []
    rw [hyl, hxl, linregress_map_some (data.idx.map plog) (c.2.reduceOption.map plog)
      hlylen hlxne hss]
    rfl
  rw [fit_powerlaw]
  simp only []
  rw [exMapM_ok_of_forall _
    (fun c => ((c.1 : String), [some (specOlsSlope (data.idx.map plog) (c.2.reduceOption.map plog)),
      some (pexp (specOlsIntercept (data.idx.map plog) (c.2.reduceOption.map plog)))]))
    data.cols hcols]
  have hnem : (data.cols.map (fun c => ((c.1 : String),
      [some (specOlsSlope (data.idx.map plog) (c.2.reduceOption.map plog)),
       some (pexp (specOlsIntercept (data.idx.map plog) (c.2.reduceOption.map plog)))]))).isEmpty = false := by
    cases hcc : data.cols with
    | nil => exact absurd hcc hne
    | cons a as => rfl
  simp only [hnem, Bool.false_eq_true, if_false]
  simp [SFrame.transpose, List.map_map, List.enum, List.enumFrom, List.getD, Function.comp]

/-- C5 counterexample: on a table whose single column has a missing value,
`fit_powerlaw` raises instead of returning power-law parameters: the dropped
y-vector (length 2) is regressed against the log of the FULL x-axis (length
3), and the elementwise products inside `linregress` fail to broadcast.  So
the claim, quantified over every input table, is false. -/
theorem c5_counterexample :
    fit_powerlaw idQ idQ dMissOne = .error "operands could not be broadcast together" := by
  simp only [fit_powerlaw, exMapM, linregress, colSeries, PSeries.dropna, PSeries.npLog,
    PSeries.mapVals, PSeries.values, npLogQ, npSum, npMean, pvDiv, pvSub, pvMul, pvBin,
    dMissOne, List.zip, List.zipWith, List.filter, List.map, Option.bind]
  norm_num

/-- Witness for the amended power-law theorem at a concrete input. -/
theorem c5_powerlaw_amended_witness :
    dPow.cols ≠ [] ∧
    (∀ c ∈ dPow.cols, c.2.length = dPow.idx.length) ∧
    (∀ i ∈ dPow.idx, 0 < i) ∧
    (∀ c ∈ dPow.cols, ∀ v ∈ c.2, ∃ q0, v = some q0 ∧ 0 < q0) ∧
    specSsxm (dPow.idx.map idQ) ≠ 0 ∧
    fit_powerlaw idQ idQ dPow = .ok
      ⟨dPow.cols.map Prod.fst,
       [("n", dPow.cols.map (fun c =>
            some (specOlsSlope (dPow.idx.map idQ) (c.2.reduceOption.map idQ)))),
        ("A", dPow.cols.map (fun c =>
            some (idQ (specOlsIntercept (dPow.idx.map idQ) (c.2.reduceOption.map idQ)))))]⟩ := by
  have h1 : dPow.cols ≠ [] := by decide
  have h2 : ∀ c ∈ dPow.cols, c.2.length = dPow.idx.length := by decide
  have h3 : ∀ i ∈ dPow.idx, 0 < i := by
    intro i hi
    simp only [dPow, List.mem_cons, List.not_mem_nil, or_false] at hi
    rcases hi with rfl | rfl <;> norm_num
  have h4 : ∀ c ∈ dPow.cols, ∀ v ∈ c.2, ∃ q0, v = some q0 ∧ 0 < q0 := by
    intro c hc v hv
    simp only [dPow, List.mem_singleton] at hc
    subst hc
    simp only [List.mem_cons, List.mem_singleton, List.not_mem_nil, or_false] at hv
    rcases hv with rfl | rfl
    · exact ⟨1, rfl, by norm_num⟩
    · exact ⟨2, rfl, by norm_num⟩
  have h5 : specSsxm (dPow.idx.map idQ) ≠ 0 := by
    norm_num [specSsxm, dPow, idQ]
  exact ⟨h1, h2, h3, h4, h5, c5_powerlaw_amended idQ idQ dPow h1 h2 h3 h4 h5⟩

/-- C6: on a column containing a negative value, `np.log` yields NaN (no
exception), the regression arithmetic propagates it, and `fit_powerlaw`
returns normally with NaN (`none`) in both the `n` and `A` cells for that
column — a silently produced NaN, not a reported domain error. -/
theorem c6_silent_nan :
    fit_powerlaw idQ idQ dNeg = .ok ⟨["a"], [("n", [none]), ("A", [none])]⟩ := by
  simp only [fit_powerlaw, exMapM, linregress, colSeries, PSeries.dropna, PSeries.npLog,
    PSeries.mapVals, PSeries.values, npLogQ, npSum, npMean, pvDiv, pvSub, pvMul, pvBin,
    dNeg, idQ, List.zip, List.zipWith, List.filter, List.map, List.filterMap, List.enum,
    Option.bind, Option.map, SFrame.transpose]
  norm_num

/-- C7: with `log_residual` set (and before any weighting), the objective
returns, at every aligned point, the finite value of
`log(observed) - log(predicted)` when that value is finite, and otherwise
the mean of the finite residuals of that evaluation (`none` when no
residual is finite, i.e. NaN filled with NaN). -/
theorem c7_log_residual_mean_substitution (plog : ℚ → ℚ)
    (mf : ℚ → Params → PyVal) (q : Params) (x y : PSeries) :
    residual_func plog true mf q x y none =
      (specLogDiff plog mf q x y).data.map
        (fun pr => if pr.2.isSome then pr.2
                   else specFiniteMean (specLogDiff plog mf q x y)) := by
  simp only [residual_func, preWeightE, specLogDiff, specFiniteMean, PSeries.fillna,
    PSeries.mapVals, PSeries.values, PSeries.meanVal, List.reduceOption,
    List.filterMap_map, List.map_map, if_true]
  rfl

/-- C9 amended: the only synchronous pre-solver validation `NLS` performs
is the weight-length assertion: a weight sequence whose length differs from
the table's row count aborts the whole call, for every solver oracle, with
the assertion's descriptive message. -/
theorem c9_weight_length_validated (plog : ℚ → ℚ) (m : Minimizer)
    (data : PDataFrame) (mf : ℚ → Params → PyVal) (spec : ParamSpec)
    (w : List PyVal) (lr inv : Bool) (h : w.length ≠ data.idx.length) :
    NLS plog m data mf spec (some w) lr inv =
      .error "weights must be an array-like sequence the same length as data." := by
  simp only [NLS, checkWeights, if_neg h]

/-- Witness for the weight-length validation theorem at a concrete input. -/
theorem c9_weight_length_validated_witness :
    ([some (1 : ℚ)] : List PyVal).length ≠ dMiss.idx.length ∧
    NLS idQ mTriv dMiss cZero (ParamSpec.static [("c", 0)]) (some [some 1]) false false =
      .error "weights must be an array-like sequence the same length as data." :=
  ⟨by decide,
   c9_weight_length_validated idQ mTriv dMiss cZero (ParamSpec.static [("c", 0)])
     [some 1] false false (by decide)⟩

/-- C2: for every table, parameter spec, weight choice and solver oracle,
a successful `NLS` call returns values and stderr tables whose row labels
are exactly the input table's column labels and whose column labels are
exactly the parameter names of the resolved spec.  (The model assumes the
input's column labels are distinct, as pandas column assignment overwrites
duplicate labels.) -/
theorem c2_result_table_labels (plog : ℚ → ℚ) (m : Minimizer)
    (data : PDataFrame) (mf : ℚ → Params → PyVal) (spec : ParamSpec)
    (w : Option (List PyVal)) (lr inv : Bool) (r : ResultObj)
    (_hnd : (data.cols.map Prod.fst).Nodup)
    (h : NLS plog m data mf spec w lr inv = .ok r) :
    r.valuesT.idx = data.cols.map Prod.fst ∧
    r.valuesT.cols.map Prod.fst = initParamNames spec data ∧
    r.stderrT.idx = data.cols.map Prod.fst ∧
    r.stderrT.cols.map Prod.fst = initParamNames spec data :=
  NLS_ok_shape plog m data mf spec w lr inv r h

/-- Witness for the label-shape theorem at a concrete input. -/
theorem c2_result_table_labels_witness :
    (dMiss.cols.map Prod.fst).Nodup ∧
    NLS idQ mTriv dMiss cZero (ParamSpec.static [("c", 0)]) none false false = .ok rMiss ∧
    (rMiss.valuesT.idx = dMiss.cols.map Prod.fst ∧
     rMiss.valuesT.cols.map Prod.fst = initParamNames (ParamSpec.static [("c", 0)]) dMiss ∧
     rMiss.stderrT.idx = dMiss.cols.map Prod.fst ∧
     rMiss.stderrT.cols.map Prod.fst = initParamNames (ParamSpec.static [("c", 0)]) dMiss) := by
  have hok : NLS idQ mTriv dMiss cZero (ParamSpec.static [("c", 0)]) none false false = .ok rMiss := by
    simp only [NLS, checkWeights, initParams, exMapM, columnOutputs, colSeries, xSeries,
      resolveParams, mTriv, dMiss, cZero, idQ, residual_func, preWeightE, PSeries.dropna,
      PSeries.apply, PSeries.sub, PSeries.npLog, PSeries.mapVals, PSeries.fillna,
      PSeries.meanVal, PSeries.values, mergeOp, mergeOpAux, buildResult, SFrame.transpose,
      lookupVal, lookupErr, List.zip, List.zipWith, List.filter, List.map, List.filterMap,
      List.enum, List.getLast?, Option.bind, npLogQ, pvSub, pvMul, pvBin, rMiss]
    norm_num
  exact ⟨by decide, hok,
    c2_result_table_labels idQ mTriv dMiss cZero (ParamSpec.static [("c", 0)]) none
      false false rMiss (by decide) hok⟩

/-- C10: for a callable parameter spec, the column labels of the values and
stderr tables are the parameter names produced by the extra, pre-loop
invocation of the factory on the raw first column (missing values still
included); and the rest of the result depends on the factory only through
its values on the cleaned (missing-dropped) columns, as witnessed by the
invariance of the whole result under replacing the factory by any other
one agreeing there and on the raw first column. -/
theorem c10_factory_invocations (plog : ℚ → ℚ) (m : Minimizer)
    (data : PDataFrame) (mf : ℚ → Params → PyVal) (f : PSeries → Params)
    (w : Option (List PyVal)) (lr inv : Bool) (r : ResultObj)
    (h : NLS plog m data mf (.factory f) w lr inv = .ok r) :
    (r.valuesT.cols.map Prod.fst = (f (rawCol0 data)).map Prod.fst ∧
     r.stderrT.cols.map Prod.fst = (f (rawCol0 data)).map Prod.fst) ∧
    ∀ g : PSeries → Params,
      (∀ c ∈ data.cols,
        g ((colSeries data.idx c.2).dropna) = f ((colSeries data.idx c.2).dropna)) →
      g (rawCol0 data) = f (rawCol0 data) →
      NLS plog m data mf (.factory g) w lr inv = .ok r := by
  have hs := NLS_ok_shape plog m data mf (.factory f) w lr inv r h
  refine ⟨⟨hs.2.1, hs.2.2.2⟩, fun g hg hg0 => ?_⟩
  exact (NLS_factory_congr plog m data mf f g w lr inv hg hg0).trans h

/-- Witness for the factory-invocation theorem: the concrete factory `fLen`
on `dMiss`, and the distinct factory `gLen` agreeing on the cleaned columns
and the raw first column. -/
theorem c10_factory_invocations_witness :
    NLS idQ mTriv dMiss cZero (ParamSpec.factory fLen) none false false = .ok rFac ∧
    (rFac.valuesT.cols.map Prod.fst = (fLen (rawCol0 dMiss)).map Prod.fst ∧
     rFac.stderrT.cols.map Prod.fst = (fLen (rawCol0 dMiss)).map Prod.fst) ∧
    (∀ c ∈ dMiss.cols,
      gLen ((colSeries dMiss.idx c.2).dropna) = fLen ((colSeries dMiss.idx c.2).dropna)) ∧
    gLen (rawCol0 dMiss) = fLen (rawCol0 dMiss) ∧
    NLS idQ mTriv dMiss cZero (ParamSpec.factory gLen) none false false = .ok rFac := by
  have hok : NLS idQ mTriv dMiss cZero (ParamSpec.factory fLen) none false false = .ok rFac := by
    simp only [NLS, checkWeights, initParams, exMapM, columnOutputs, colSeries, xSeries,
      resolveParams, mTriv, dMiss, cZero, idQ, residual_func, preWeightE, PSeries.dropna,
      PSeries.apply, PSeries.sub, PSeries.npLog, PSeries.mapVals, PSeries.fillna,
      PSeries.meanVal, PSeries.values, mergeOp, mergeOpAux, buildResult, SFrame.transpose,
      lookupVal, lookupErr, List.zip, List.zipWith, List.filter, List.map, List.filterMap,
      List.enum, List.getLast?, Option.bind, npLogQ, pvSub, pvMul, pvBin, rFac, fLen]
    norm_num
  have hg : ∀ c ∈ dMiss.cols,
      gLen ((colSeries dMiss.idx c.2).dropna) = fLen ((colSeries dMiss.idx c.2).dropna) := by
    decide
  have hg0 : gLen (rawCol0 dMiss) = fLen (rawCol0 dMiss) := by decide
  have hmain := c10_factory_invocations idQ mTriv dMiss cZero fLen none false false rFac hok
  exact ⟨hok, hmain.1, hg, hg0, hmain.2 gLen hg hg0⟩

/-- C8: a weight series equal to 1.0 at every row of the residual's index
leaves the residual vector exactly unchanged (first conjunct, at the
residual-function level for any parameters, x, y and either residual mode);
consequently a whole `NLS` run with uniform weight 1.0 on every row of a
(sorted) x-axis returns a result identical to the unweighted run (second
conjunct), so the fitted values coincide exactly. -/
theorem c8_unit_weights_identity :
    (∀ (plog : ℚ → ℚ) (lr : Bool) (mf : ℚ → Params → PyVal) (q : Params)
        (x y : PSeries) (w : PSeries),
        w.data = (preWeightE plog lr mf q x y).data.map (fun pr => (pr.1, some (1 : ℚ))) →
        residual_func plog lr mf q x y (some w) = residual_func plog lr mf q x y none) ∧
    (∀ (plog : ℚ → ℚ) (m : Minimizer) (data : PDataFrame)
        (mf : ℚ → Params → PyVal) (spec : ParamSpec) (lr : Bool),
        data.idx.Sorted (· < ·) →
        NLS plog m data mf spec (some (List.replicate data.idx.length (some (1 : ℚ)))) lr false =
          NLS plog m data mf spec none lr false) :=
  ⟨fun plog lr mf q x y w hw => residual_func_ones plog lr mf q x y w hw,
   fun plog m data mf spec lr hs => NLS_unit_weights plog m data mf spec lr hs⟩

/-- Witness for the unit-weight theorem at concrete inputs. -/
theorem c8_unit_weights_identity_witness :
    ((⟨[(1, some 1), (2, some 1), (3, some 1)]⟩ : PSeries).data =
        (preWeightE idQ false cZero [("c", 0)] (xSeries [1, 2, 3])
          ⟨[(1, some 1), (3, some 3)]⟩).data.map (fun pr => (pr.1, some (1 : ℚ))) ∧
      residual_func idQ false cZero [("c", 0)] (xSeries [1, 2, 3])
          ⟨[(1, some 1), (3, some 3)]⟩ (some ⟨[(1, some 1), (2, some 1), (3, some 1)]⟩) =
        residual_func idQ false cZero [("c", 0)] (xSeries [1, 2, 3])
          ⟨[(1, some 1), (3, some 3)]⟩ none) ∧
    (dMiss.idx.Sorted (· < ·) ∧
      NLS idQ mTriv dMiss cZero (ParamSpec.static [("c", 0)])
          (some (List.replicate dMiss.idx.length (some 1))) false false =
        NLS idQ mTriv dMiss cZero (ParamSpec.static [("c", 0)]) none false false) := by
  have hw : (⟨[(1, some 1), (2, some 1), (3, some 1)]⟩ : PSeries).data =
      (preWeightE idQ false cZero [("c", 0)] (xSeries [1, 2, 3])
        ⟨[(1, some 1), (3, some 3)]⟩).data.map (fun pr => (pr.1, some (1 : ℚ))) := by
    simp only [preWeightE, PSeries.apply, PSeries.sub, PSeries.npLog, PSeries.mapVals,
      PSeries.fillna, PSeries.meanVal, xSeries, mergeOp, mergeOpAux, cZero, idQ,
      List.map, List.filterMap, Option.bind, pvSub, pvBin]
  have hs : dMiss.idx.Sorted (· < ·) := by
    norm_num [dMiss, List.sorted_cons]
  exact ⟨⟨hw, c8_unit_weights_identity.1 idQ false cZero [("c", 0)] _ _ _ hw⟩,
         hs, c8_unit_weights_identity.2 idQ mTriv dMiss cZero (ParamSpec.static [("c", 0)]) false hs⟩

/-- C9 counterexample: a column with zero non-missing rows does not abort
the call — `NLS` runs the solver on an all-NaN residual vector and returns
a populated result, with no validation error. -/
theorem c9_counterexample :
    (NLS idQ mTriv dAllMiss cZero (ParamSpec.static [("c", 0)]) none false
        false).isOk = true := by
  simp only [NLS, checkWeights, initParams, exMapM, columnOutputs, colSeries, xSeries,
    resolveParams, mTriv, dAllMiss, cZero, idQ, residual_func, preWeightE, PSeries.dropna,
    PSeries.apply, PSeries.sub, PSeries.npLog, PSeries.mapVals, PSeries.fillna,
    PSeries.meanVal, PSeries.values, mergeOp, mergeOpAux, buildResult, SFrame.transpose,
    lookupVal, lookupErr, List.zip, List.zipWith, List.filter, List.map, List.filterMap,
    List.enum, List.getLast?, Option.bind, npLogQ, pvSub, pvMul, pvBin, Except.isOk,
    Except.toBool]
  norm_num

end Fitting
